import Mathlib

/-!
Verification of the orchestration core of the golang-cloud repository.

The development shallowly embeds the Go source:
  - the dependency leveling loop of NewApp (cloudz/app.go),
  - the export naming scheme and CloudExports lookups (cloudz/utils_cloud.go),
  - the CloudFormation stack operations (opz/internal/assets/assets.go),
  - the plugin metadata accessors (cloudz/plugin_api.go),
  - the local and cloud Stage drivers (localStageImpl, cloudStageImpl).

Plugins are identified by natural numbers in the leveler model; Go map
iteration order is modelled by the order of an association list.
-/

/-- One state of the Go pluginsMap in the NewApp leveling loop: each entry is
a plugin together with its remaining (not yet resolved) dependencies. The
list order models the (arbitrary) Go map iteration order. -/
abbrev LevelState := List (Nat × List Nat)

/-- The wave collected by one iteration of the NewApp loop: every plugin
whose remaining dependency set is empty, in map iteration order. -/
def levelWave (st : LevelState) : List Nat :=
  (st.filter (fun pd => pd.2.isEmpty)).map Prod.fst

/-- The pluginsMap after one iteration: every wave member is deleted from the
map, and deleted from the remaining dependency set of every other plugin. -/
def levelStep (st : LevelState) : LevelState :=
  (st.filter (fun pd => !(levelWave st).contains pd.1)).map
    (fun pd => (pd.1, pd.2.filter (fun d => !(levelWave st).contains d)))

/-- The leveling loop of NewApp, with explicit fuel. The Go loop runs until
the map is empty and has no cycle detection; a result of none models the
fuel bound being reached with plugins still unresolved. -/
def levelWaves : Nat → LevelState → Option (List (List Nat))
  | _, [] => some []
  | 0, _ :: _ => none
  | fuel + 1, pd :: st =>
      (levelWaves fuel (levelStep (pd :: st))).map (fun ws => levelWave (pd :: st) :: ws)

/-- The initial pluginsMap built by NewApp from cfg.Plugins: each plugin is
paired with its GetDependenciesMap result. -/
def pluginsMapOf (plugins : List Nat) (deps : Nat → List Nat) : LevelState :=
  plugins.map (fun p => (p, deps p))

/-- Index of the wave containing a given plugin in a computed wave list. -/
def waveIdx (w : List (List Nat)) (x : Nat) : Nat :=
  w.findIdx (fun g => g.contains x)

/-- The two-plugin dependency cycle: plugin 0 depends on plugin 1 and plugin 1
depends on plugin 0. -/
def cycleState : LevelState := [(0, [1]), (1, [0])]

theorem levelStep_cycleState : levelStep cycleState = cycleState := by decide

/-- Claim C2: the claim states that for a dependency set containing a cycle the
NewApp leveling loop terminates and reports an explicit dependency-cycle error.
The code has no cycle detection: on the two-plugin cycle the loop body leaves
the pluginsMap unchanged, so the loop never terminates. Formally, no fuel bound
suffices for the embedded loop to produce a result on the cycle. -/
theorem levelWaves_cycle_never_terminates :
    ∀ fuel : Nat, levelWaves fuel cycleState = none := by
  intro fuel
  induction fuel with
  | zero => rfl
  | succ n ih =>
      show (levelWaves n (levelStep cycleState)).map _ = none
      rw [levelStep_cycleState, ih]
      rfl

/-- Claim C6: the claim states that the order of plugins within each wave is
deterministic, not inherited from an unordered collection. The code collects
each wave by ranging over a Go map, whose iteration order is unspecified.
Modelling iteration order as association list order: the same map content
(a permutation of entries) yields different wave lists, so the output is a
function of the iteration order, not of the map content alone. -/
theorem levelWaves_wave_order_map_iteration_dependent :
    ([((0 : Nat), ([] : List Nat)), (1, [])] : LevelState).Perm [(1, []), (0, [])] ∧
      levelWaves 2 [((0 : Nat), ([] : List Nat)), (1, [])] = some [[0, 1]] ∧
      levelWaves 2 [((1 : Nat), ([] : List Nat)), (0, [])] = some [[1, 0]] ∧
      levelWaves 2 [((0 : Nat), ([] : List Nat)), (1, [])] ≠
        levelWaves 2 [((1 : Nat), ([] : List Nat)), (0, [])] := by
  refine ⟨?_, by decide, by decide, by decide⟩
  exact List.Perm.swap _ _ _

/-- Membership form of Boolean list containment for plugin identifiers. -/
theorem containsIffMem {l : List Nat} {x : Nat} : l.contains x = true ↔ x ∈ l := by
  simp [List.contains, List.elem_iff]

/-- Every nonempty list has an element minimizing a Nat-valued measure. -/
theorem existsMinOn {α : Type} (f : α → Nat) :
    ∀ l : List α, l ≠ [] → ∃ a ∈ l, ∀ b ∈ l, f a ≤ f b := by
  intro l
  induction l with
  | nil => intro h; exact absurd rfl h
  | cons a t ih =>
      intro _
      cases t with
      | nil => exact ⟨a, by simp, by simp⟩
      | cons b u =>
          obtain ⟨m, hm, hmin⟩ := ih (by simp)
          by_cases hle : f a ≤ f m
          · refine ⟨a, by simp, ?_⟩
            intro c hc
            rcases List.mem_cons.mp hc with rfl | hc
            · exact Nat.le_refl _
            · exact Nat.le_trans hle (hmin c hc)
          · refine ⟨m, List.mem_cons_of_mem _ hm, ?_⟩
            intro c hc
            rcases List.mem_cons.mp hc with rfl | hc
            · exact Nat.le_of_lt (Nat.lt_of_not_le hle)
            · exact hmin c hc

/-- In a state with distinct plugin keys, a plugin is in the wave exactly when
its remaining dependency list is empty. -/
theorem memLevelWaveIff {st : LevelState} (hnd : (st.map Prod.fst).Nodup)
    {pd : Nat × List Nat} (hpd : pd ∈ st) : pd.1 ∈ levelWave st ↔ pd.2 = [] := by
  constructor
  · intro hw
    obtain ⟨qd, hq, hq1⟩ := List.mem_map.mp hw
    have hqst : qd ∈ st := (List.mem_filter.mp hq).1
    have hqe : qd.2 = [] := List.isEmpty_iff.mp (List.mem_filter.mp hq).2
    have : qd = pd := List.inj_on_of_nodup_map hnd hqst hpd hq1
    exact this ▸ hqe
  · intro he
    refine List.mem_map.mpr ⟨pd, List.mem_filter.mpr ⟨hpd, ?_⟩, rfl⟩
    exact List.isEmpty_iff.mpr he

/-- Every wave member is a key of the state. -/
theorem levelWaveSubsetKeys {st : LevelState} {x : Nat} (h : x ∈ levelWave st) :
    x ∈ st.map Prod.fst := by
  obtain ⟨qd, hq, hq1⟩ := List.mem_map.mp h
  exact List.mem_map.mpr ⟨qd, (List.mem_filter.mp hq).1, hq1⟩

/-- Progress: on a nonempty state whose dependencies are closed and compatible
with a ranking, the collected wave is nonempty. -/
theorem levelWaveNeNil {st : LevelState} (rank : Nat → Nat) (hne : st ≠ [])
    (hcl : ∀ pd ∈ st, ∀ d ∈ pd.2, d ∈ st.map Prod.fst)
    (hrk : ∀ pd ∈ st, ∀ d ∈ pd.2, rank d < rank pd.1) :
    levelWave st ≠ [] := by
  obtain ⟨pd, hpd, hmin⟩ := existsMinOn (fun pd : Nat × List Nat => rank pd.1) st hne
  have he : pd.2 = [] := by
    cases hds : pd.2 with
    | nil => rfl
    | cons d t =>
        exfalso
        have hd : d ∈ pd.2 := hds ▸ List.mem_cons_self _ _
        have hdk : d ∈ st.map Prod.fst := hcl pd hpd d hd
        obtain ⟨qd, hq, hq1⟩ := List.mem_map.mp hdk
        have h1 : rank d < rank pd.1 := hrk pd hpd d hd
        have h2 : rank pd.1 ≤ rank qd.1 := hmin qd hq
        rw [hq1] at h2
        exact Nat.not_le_of_lt h1 h2
  intro hw
  have : pd.1 ∈ levelWave st := by
    refine List.mem_map.mpr ⟨pd, List.mem_filter.mpr ⟨hpd, ?_⟩, rfl⟩
    exact List.isEmpty_iff.mpr he
  rw [hw] at this
  exact List.not_mem_nil _ this

/-- The keys of the stepped state are the surviving keys, in order. -/
theorem levelStepKeys (st : LevelState) :
    (levelStep st).map Prod.fst =
      (st.filter (fun pd => !(levelWave st).contains pd.1)).map Prod.fst := by
  unfold levelStep
  rw [List.map_map]
  rfl

/-- A key of the state that is not in the wave survives into the stepped state. -/
theorem memKeysLevelStep {st : LevelState} {d : Nat}
    (hd : d ∈ st.map Prod.fst) (hw : d ∉ levelWave st) :
    d ∈ (levelStep st).map Prod.fst := by
  rw [levelStepKeys]
  obtain ⟨qd, hq, hq1⟩ := List.mem_map.mp hd
  refine List.mem_map.mpr ⟨qd, List.mem_filter.mpr ⟨hq, ?_⟩, hq1⟩
  have hc : (levelWave st).contains qd.1 = false := by
    cases hc : (levelWave st).contains qd.1 with
    | false => rfl
    | true => exact absurd (hq1 ▸ containsIffMem.mp hc) hw
  rw [hc]
  rfl

/-- The stepped state is strictly shorter when the wave is nonempty. -/
theorem levelStepLengthLt {st : LevelState} (hw : levelWave st ≠ []) :
    (levelStep st).length < st.length := by
  have hlen : (levelStep st).length =
      (st.filter (fun pd => !(levelWave st).contains pd.1)).length := by
    unfold levelStep; rw [List.length_map]
  rw [hlen]
  refine List.length_filter_lt_length_iff_exists.mpr ?_
  cases hwv : levelWave st with
  | nil => exact absurd hwv hw
  | cons x t =>
      have hx : x ∈ levelWave st := hwv ▸ List.mem_cons_self _ _
      obtain ⟨qd, hq, hq1⟩ := List.mem_map.mp (levelWaveSubsetKeys hx)
      refine ⟨qd, hq, ?_⟩
      have hx' : qd.1 ∈ x :: t := by rw [hq1]; exact hwv ▸ hx
      intro hc
      rw [containsIffMem.mpr hx'] at hc
      cases hc

/-- Key distinctness survives a leveling step. -/
theorem levelStepNodup {st : LevelState} (hnd : (st.map Prod.fst).Nodup) :
    ((levelStep st).map Prod.fst).Nodup := by
  rw [levelStepKeys]
  exact ((List.filter_sublist st).map Prod.fst).nodup hnd

/-- Dependency closedness survives a leveling step. -/
theorem levelStepClosed {st : LevelState}
    (hcl : ∀ pd ∈ st, ∀ d ∈ pd.2, d ∈ st.map Prod.fst) :
    ∀ pd ∈ levelStep st, ∀ d ∈ pd.2, d ∈ (levelStep st).map Prod.fst := by
  intro pd hpd d hd
  obtain ⟨qd, hq, hq1⟩ := List.mem_map.mp hpd
  have hqst : qd ∈ st := (List.mem_filter.mp hq).1
  have hd2 : d ∈ qd.2.filter (fun d => !(levelWave st).contains d) := by
    rw [← hq1] at hd; exact hd
  have hdq : d ∈ qd.2 := (List.mem_filter.mp hd2).1
  have hdw : d ∉ levelWave st := by
    have := (List.mem_filter.mp hd2).2
    simp only [Bool.not_eq_true'] at this
    intro hc
    rw [containsIffMem.mpr hc] at this
    cases this
  exact memKeysLevelStep (hcl qd hqst d hdq) hdw

/-- Rank compatibility survives a leveling step. -/
theorem levelStepRank {st : LevelState} (rank : Nat → Nat)
    (hrk : ∀ pd ∈ st, ∀ d ∈ pd.2, rank d < rank pd.1) :
    ∀ pd ∈ levelStep st, ∀ d ∈ pd.2, rank d < rank pd.1 := by
  intro pd hpd d hd
  obtain ⟨qd, hq, hq1⟩ := List.mem_map.mp hpd
  have hqst : qd ∈ st := (List.mem_filter.mp hq).1
  have hd2 : d ∈ qd.2.filter (fun d => !(levelWave st).contains d) := by
    rw [← hq1] at hd; exact hd
  have hdq : d ∈ qd.2 := (List.mem_filter.mp hd2).1
  have : rank d < rank qd.1 := hrk qd hqst d hdq
  rw [← hq1]
  exact this

/-- Splitting the keys of a state into the wave and the surviving keys is a
permutation of the keys, given distinct keys. -/
theorem waveAppendStepKeysPerm {st : LevelState} (hnd : (st.map Prod.fst).Nodup) :
    (levelWave st ++ (levelStep st).map Prod.fst).Perm (st.map Prod.fst) := by
  have hsplit :
      (st.filter (fun pd => (levelWave st).contains pd.1) ++
        st.filter (fun pd => !(levelWave st).contains pd.1)).Perm st :=
    List.filter_append_perm _ st
  have hperm := hsplit.map Prod.fst
  rw [List.map_append] at hperm
  have hcongr : st.filter (fun pd => (levelWave st).contains pd.1) =
      st.filter (fun pd => pd.2.isEmpty) := by
    refine List.filter_congr ?_
    intro pd hpd
    cases hmem : (levelWave st).contains pd.1 with
    | true =>
        have : pd.2 = [] := (memLevelWaveIff hnd hpd).mp (containsIffMem.mp hmem)
        simp [this]
    | false =>
        have : pd.2 ≠ [] := by
          intro he
          have : pd.1 ∈ levelWave st := (memLevelWaveIff hnd hpd).mpr he
          rw [containsIffMem.mpr this] at hmem
          cases hmem
        simp [List.isEmpty_iff, this]
  rw [hcongr] at hperm
  rw [levelStepKeys]
  exact hperm

/-- Larger fuel preserves a successful leveling run. -/
theorem levelWavesFuelMono :
    ∀ (f₁ : Nat) (st : LevelState) (w : List (List Nat)),
      levelWaves f₁ st = some w → ∀ f₂, f₁ ≤ f₂ → levelWaves f₂ st = some w := by
  intro f₁
  induction f₁ with
  | zero =>
      intro st w h f₂ _
      cases st with
      | nil =>
          cases f₂ with
          | zero => exact h
          | succ n => cases h; rfl
      | cons pd t => cases h
  | succ n ih =>
      intro st w h f₂ hle
      cases st with
      | nil =>
          cases h
          cases f₂ with
          | zero => rfl
          | succ m => rfl
      | cons pd t =>
          cases f₂ with
          | zero => cases hle
          | succ m =>
              have hm : n ≤ m := Nat.le_of_succ_le_succ hle
              cases hrec : levelWaves n (levelStep (pd :: t)) with
              | none =>
                  exfalso
                  have : levelWaves (n + 1) (pd :: t) = none := by
                    show (levelWaves n (levelStep (pd :: t))).map _ = none
                    rw [hrec]; rfl
                  rw [this] at h; cases h
              | some w' =>
                  have hw : w = levelWave (pd :: t) :: w' := by
                    have : levelWaves (n + 1) (pd :: t) =
                        some (levelWave (pd :: t) :: w') := by
                      show (levelWaves n (levelStep (pd :: t))).map _ = _
                      rw [hrec]; rfl
                    rw [this] at h; cases h; rfl
                  show (levelWaves m (levelStep (pd :: t))).map _ = some w
                  rw [ih (levelStep (pd :: t)) w' hrec m hm, hw]
                  rfl

/-- Wave index of a plugin contained in the head wave. -/
theorem waveIdxConsMem {g : List Nat} {w : List (List Nat)} {x : Nat} (h : x ∈ g) :
    waveIdx (g :: w) x = 0 := by
  unfold waveIdx
  rw [List.findIdx_cons, containsIffMem.mpr h]
  rfl

/-- Wave index of a plugin not contained in the head wave. -/
theorem waveIdxConsNotMem {g : List Nat} {w : List (List Nat)} {x : Nat} (h : x ∉ g) :
    waveIdx (g :: w) x = waveIdx w x + 1 := by
  unfold waveIdx
  rw [List.findIdx_cons]
  cases hc : g.contains x with
  | true => exact absurd (containsIffMem.mp hc) h
  | false => rfl

/-- Soundness of the leveling loop on any state with distinct keys, closed
dependencies, and a ranking witnessing acyclicity: the loop terminates within
fuel equal to the state length, its waves enumerate the keys exactly once, and
every remaining dependency lands in a strictly earlier wave. -/
theorem levelWavesSound :
    ∀ (n : Nat) (st : LevelState) (rank : Nat → Nat), st.length ≤ n →
      (st.map Prod.fst).Nodup →
      (∀ pd ∈ st, ∀ d ∈ pd.2, d ∈ st.map Prod.fst) →
      (∀ pd ∈ st, ∀ d ∈ pd.2, rank d < rank pd.1) →
      ∃ w, levelWaves st.length st = some w ∧
        w.flatten.Perm (st.map Prod.fst) ∧
        ∀ pd ∈ st, ∀ d ∈ pd.2, waveIdx w d < waveIdx w pd.1 := by
  intro n
  induction n with
  | zero =>
      intro st rank hlen _ _ _
      cases st with
      | nil => exact ⟨[], rfl, List.Perm.refl _, by intro pd hpd; cases hpd⟩
      | cons pd t => exact absurd hlen (by simp)
  | succ n ih =>
      intro st rank hlen hnd hcl hrk
      cases hst : st with
      | nil => exact ⟨[], rfl, List.Perm.refl _, by intro pd hpd; cases hpd⟩
      | cons pd0 t =>
          rw [← hst]
          have hne : st ≠ [] := by rw [hst]; intro h; cases h
          have hwne : levelWave st ≠ [] := levelWaveNeNil rank hne hcl hrk
          have hlt : (levelStep st).length < st.length := levelStepLengthLt hwne
          have hlen' : (levelStep st).length ≤ n := by
            have := Nat.lt_of_lt_of_le hlt hlen
            exact Nat.le_of_lt_succ this
          obtain ⟨w', hw', hperm', hidx'⟩ :=
            ih (levelStep st) rank hlen' (levelStepNodup hnd)
              (levelStepClosed hcl) (levelStepRank rank hrk)
          have hw'' : levelWaves (st.length - 1) (levelStep st) = some w' :=
            levelWavesFuelMono _ _ _ hw' (st.length - 1) (by omega)
          have hrun : levelWaves st.length st = some (levelWave st :: w') := by
            rw [hst]
            show (levelWaves t.length (levelStep (pd0 :: t))).map _ = _
            have ht : t.length = st.length - 1 := by rw [hst]; rfl
            rw [ht, ← hst, hw'']
            rfl
          refine ⟨levelWave st :: w', hrun, ?_, ?_⟩
          · rw [List.flatten_cons]
            exact ((hperm'.append_left (levelWave st)).trans
              (waveAppendStepKeysPerm hnd))
          · intro pd hpd d hd
            have hne2 : pd.2 ≠ [] := by
              intro he; rw [he] at hd; cases hd
            have hpw : pd.1 ∉ levelWave st := by
              intro hmem
              exact hne2 ((memLevelWaveIff hnd hpd).mp hmem)
            rw [waveIdxConsNotMem hpw]
            by_cases hdw : d ∈ levelWave st
            · rw [waveIdxConsMem hdw]
              exact Nat.succ_pos _
            · have hcontp : (!(levelWave st).contains pd.1) = true := by
                cases hc : (levelWave st).contains pd.1 with
                | false => rfl
                | true => exact absurd (containsIffMem.mp hc) hpw
              have hcontd : (!(levelWave st).contains d) = true := by
                cases hc : (levelWave st).contains d with
                | false => rfl
                | true => exact absurd (containsIffMem.mp hc) hdw
              have hmemStep :
                  (pd.1, pd.2.filter (fun d => !(levelWave st).contains d)) ∈
                    levelStep st := by
                refine List.mem_map.mpr
                  ⟨pd, List.mem_filter.mpr ⟨hpd, hcontp⟩, rfl⟩
              have hdmem : d ∈ pd.2.filter (fun d => !(levelWave st).contains d) :=
                List.mem_filter.mpr ⟨hd, hcontd⟩
              have := hidx' _ hmemStep d hdmem
              rw [waveIdxConsNotMem hdw]
              exact Nat.succ_lt_succ this

/-- Claim C1: for every acyclic dependency set given to NewApp (acyclicity
witnessed by a ranking, dependencies drawn from the plugin set, plugins
distinct), the leveling loop terminates and the wave list it stores in
sortedPlugins satisfies: every plugin appears in exactly one wave (the
flattened waves are a permutation of the input and each plugin occurs once),
and every dependency of a plugin sits in a wave of strictly smaller index. -/
theorem newApp_sortedPlugins_wave_invariant
    (plugins : List Nat) (deps : Nat → List Nat) (rank : Nat → Nat)
    (hnd : plugins.Nodup)
    (hcl : ∀ p ∈ plugins, ∀ d ∈ deps p, d ∈ plugins)
    (hrk : ∀ p ∈ plugins, ∀ d ∈ deps p, rank d < rank p) :
    ∃ w, levelWaves plugins.length (pluginsMapOf plugins deps) = some w ∧
      w.flatten.Perm plugins ∧
      (∀ p ∈ plugins, w.flatten.count p = 1) ∧
      ∀ p ∈ plugins, ∀ d ∈ deps p, waveIdx w d < waveIdx w p := by
  have hkeys : (pluginsMapOf plugins deps).map Prod.fst = plugins := by
    unfold pluginsMapOf
    rw [List.map_map]
    exact List.map_id _
  have hlen : (pluginsMapOf plugins deps).length = plugins.length := by
    unfold pluginsMapOf
    exact List.length_map _ _
  obtain ⟨w, hrun, hperm, hidx⟩ :=
    levelWavesSound (pluginsMapOf plugins deps).length (pluginsMapOf plugins deps)
      rank (Nat.le_refl _)
      (by rw [hkeys]; exact hnd)
      (by
        intro pd hpd d hd
        rw [hkeys]
        obtain ⟨p, hp, hpe⟩ := List.mem_map.mp hpd
        have h2 : pd.2 = deps p := by rw [← hpe]
        have h1 : pd.1 = p := by rw [← hpe]
        exact hcl p hp d (h2 ▸ hd))
      (by
        intro pd hpd d hd
        obtain ⟨p, hp, hpe⟩ := List.mem_map.mp hpd
        have h2 : pd.2 = deps p := by rw [← hpe]
        have h1 : pd.1 = p := by rw [← hpe]
        rw [h1]
        exact hrk p hp d (h2 ▸ hd))
  rw [hkeys] at hperm
  rw [hlen] at hrun
  refine ⟨w, hrun, hperm, ?_, ?_⟩
  · intro p hp
    have hmem : p ∈ w.flatten := hperm.mem_iff.mpr hp
    have hnd' : w.flatten.Nodup := hperm.nodup_iff.mpr hnd
    exact List.count_eq_one_of_mem hnd' hmem
  · intro p hp d hd
    exact hidx (p, deps p) (List.mem_map.mpr ⟨p, hp, rfl⟩) d hd

/-- Witness for claim C1 at the three-plugin scenario of the spec: plugin 0
has no dependencies, plugin 1 depends on 0, plugin 2 depends on 0 and 1. -/
theorem newApp_sortedPlugins_wave_invariant_witness :
    ∃ w, levelWaves (List.length [0, 1, 2])
        (pluginsMapOf [0, 1, 2] (fun p => if p = 1 then [0] else if p = 2 then [0, 1] else [])) = some w ∧
      w.flatten.Perm [0, 1, 2] ∧
      (∀ p ∈ [0, 1, 2], w.flatten.count p = 1) ∧
      ∀ p ∈ [0, 1, 2], ∀ d ∈ (fun p => if p = 1 then [0] else if p = 2 then [0, 1] else []) p,
        waveIdx w d < waveIdx w p :=
  newApp_sortedPlugins_wave_invariant [0, 1, 2]
    (fun p => if p = 1 then [0] else if p = 2 then [0, 1] else [])
    (fun p => p) (by decide) (by decide) (by decide)

/-- ASCII uppercase letter range check, as in the strcase byte loops. -/
def charIsUpper (c : Char) : Prop := 'A' ≤ c ∧ c ≤ 'Z'

instance (c : Char) : Decidable (charIsUpper c) := by
  unfold charIsUpper; infer_instance

/-- ASCII lowercase letter range check, as in the strcase byte loops. -/
def charIsLower (c : Char) : Prop := 'a' ≤ c ∧ c ≤ 'z'

instance (c : Char) : Decidable (charIsLower c) := by
  unfold charIsLower; infer_instance

/-- ASCII digit range check, as in the strcase byte loops. -/
def charIsDigit (c : Char) : Prop := '0' ≤ c ∧ c ≤ '9'

instance (c : Char) : Decidable (charIsDigit c) := by
  unfold charIsDigit; infer_instance

/-- Lowercases one ASCII uppercase letter, identity otherwise. -/
def goLower (c : Char) : Char :=
  if charIsUpper c then Char.ofNat (c.toNat + 32) else c

/-- Uppercases one ASCII lowercase letter, identity otherwise. -/
def goUpper (c : Char) : Char :=
  if charIsLower c then Char.ofNat (c.toNat - 32) else c

/-- Model of strings.TrimSpace restricted to the space character, the only
whitespace the repository ever passes to the strcase helpers. -/
def trimSpaces (l : List Char) : List Char :=
  ((l.dropWhile (fun c => c = ' ')).reverse.dropWhile (fun c => c = ' ')).reverse

/-- Model of the strcase toCamelInitCase loop with initCase true (ToCamel):
letters are emitted (uppercased when following a word boundary), digits are
emitted and force an uppercase next letter, separators set the boundary flag
and are dropped. -/
def camelAux : Bool → List Char → List Char
  | _, [] => []
  | capNext, c :: rest =>
    if charIsUpper c ∨ charIsLower c then
      (if capNext then goUpper c else c) :: camelAux false rest
    else if charIsDigit c then
      c :: camelAux true rest
    else
      camelAux (decide (c = '_' ∨ c = ' ' ∨ c = '-' ∨ c = '.')) rest

/-- Model of strcase.ToCamel. -/
def toCamel (s : String) : String := ⟨camelAux true (trimSpaces s.data)⟩

/-- Decision of the strcase toScreamingDelimited loop to insert a delimiter
after the current character (case-type change, acronym handling). -/
def kebabSplit (prev : Option Char) (c next : Char) : Bool :=
  if (charIsUpper c ∧ (charIsLower next ∨ charIsDigit next)) ∨
      (charIsLower c ∧ (charIsUpper next ∨ charIsDigit next)) ∨
      (charIsDigit c ∧ (charIsUpper next ∨ charIsLower next)) then
    if charIsUpper c ∧ charIsLower next then
      match prev with
      | some pc => decide (charIsUpper pc)
      | none => false
    else decide (charIsLower c ∨ charIsDigit c)
  else false

/-- Model of the strcase toScreamingDelimited loop with delimiter dash, no
ignore set, and screaming false (ToKebab): uppercase letters are lowercased,
word boundaries insert a dash, space/underscore/dash/dot become a dash. -/
def kebabAux (prev : Option Char) : List Char → List Char
  | [] => []
  | c :: rest =>
    let v := if charIsUpper c then goLower c else c
    let split : Bool :=
      match rest with
      | [] => false
      | next :: _ => kebabSplit prev c next
    if split then v :: '-' :: kebabAux (some c) rest
    else
      (if (v = ' ' ∨ v = '_' ∨ v = '-' ∨ v = '.') ∧ v ≠ '-' then '-' else v) ::
        kebabAux (some c) rest

/-- Model of strcase.ToKebab. -/
def toKebab (s : String) : String := ⟨kebabAux none (trimSpaces s.data)⟩

/-- Model of strings.ReplaceAll with the one-character pattern dot and a
one-character replacement. -/
def dotsTo (sub : Char) (l : List Char) : List Char :=
  l.map (fun c => if c = '.' then sub else c)

/-- Model of strings.ReplaceAll removing every dot. -/
def removeDots (l : List Char) : List Char :=
  l.filter (fun c => !(decide (c = '.')))

/-- CloudAtt.Name: kebab-case of the attribute with dots turned into dashes. -/
def cloudAttName (a : String) : String := toKebab ⟨dotsTo '-' a.data⟩

/-- CloudAtt.Ref: the raw attribute string. -/
def cloudAttRef (a : String) : String := a

/-- CloudRef.Name: the stack name of the owning plugin, a dash, and the ref. -/
def cloudRefName (stackName r : String) : String := stackName ++ "-" ++ r

/-- CloudRef.Ref: camel-case of the ref. -/
def cloudRefRef (r : String) : String := toCamel r

/-- CloudRef.ExpRefRef: the per-stack output key of a reference export. -/
def expRefRef (r : String) : String := cloudRefRef (r ++ "-exp-ref")

/-- CloudRef.ExpRefName: the export name of a reference export. -/
def expRefName (stackName r : String) : String := cloudRefName stackName (r ++ "-exp-ref")

/-- CloudRef.ExpAttRef: the per-stack output key of an attribute export. -/
def expAttRef (r a : String) : String :=
  cloudRefRef (r ++ "-exp") ++ String.mk (removeDots a.data)

/-- CloudRef.ExpAttName: the export name of an attribute export. -/
def expAttName (stackName r a : String) : String :=
  cloudRefName stackName (r ++ "-exp") ++ "-" ++ cloudAttName a

/-- CloudGetStackName: app name, stage name, plugin name, and the optional
instance name, joined by dashes. -/
def cloudGetStackName (appName stageName pluginName : String)
    (instanceName : Option String) : String :=
  match instanceName with
  | some i => appName ++ "-" ++ stageName ++ "-" ++ pluginName ++ "-" ++ i
  | none => appName ++ "-" ++ stageName ++ "-" ++ pluginName

/-- Claim C3 counterexample: export-name generation is not injective. Distinct
(stack name, ref) tuples collide on ExpRefName; a reference export and an
attribute export of the same stack collide on both the export name and the
per-stack output key; distinct (plugin name, instance name) pairs collide on
the stack name itself. -/
theorem exportNames_collide :
    ((("a" : String), ("b-c" : String)) ≠ (("a-b" : String), ("c" : String)) ∧
      expRefName ("a") ("b-c") = expRefName ("a-b") ("c")) ∧
    (expRefName ("s") ("a") = expAttName ("s") ("a") ("ref")) ∧
    (expRefRef ("a") = expAttRef ("a") ("Ref")) ∧
    (cloudGetStackName ("app") ("stg") ("a") (some ("b")) =
      cloudGetStackName ("app") ("stg") ("a-b") none) := by
  refine ⟨⟨by decide, ?_⟩, ?_, ?_, ?_⟩ <;> rfl

/-- Strings with equal character data are equal. -/
theorem stringDataInj {s t : String} (h : s.data = t.data) : s = t := by
  cases s; cases t; exact congrArg String.mk h

/-- Dropping a space-free prefix condition: dropWhile is the identity on lists
containing no spaces. -/
theorem dropWhileSpacesEqSelf {l : List Char} (h : ∀ c ∈ l, c ≠ ' ') :
    l.dropWhile (fun c => c = ' ') = l := by
  cases l with
  | nil => rfl
  | cons a t =>
      rw [List.dropWhile_cons]
      rw [if_neg]
      simp only [decide_eq_true_eq]
      exact h a (List.mem_cons_self _ _)

/-- trimSpaces is the identity on lists containing no spaces. -/
theorem trimSpacesEqSelf {l : List Char} (h : ∀ c ∈ l, c ≠ ' ') :
    trimSpaces l = l := by
  unfold trimSpaces
  rw [dropWhileSpacesEqSelf h]
  rw [dropWhileSpacesEqSelf (by intro c hc; exact h c (List.mem_reverse.mp hc))]
  exact List.reverse_reverse l

/-- Strings made only of lowercase ASCII letters. -/
def lowerAlphaStr (a : String) : Prop := ∀ c ∈ a.data, charIsLower c

instance (a : String) : Decidable (lowerAlphaStr a) := by
  unfold lowerAlphaStr; infer_instance

/-- No delimiter is inserted between two lowercase ASCII letters. -/
theorem kebabSplitLowerFalse (prev : Option Char) {c next : Char}
    (hc : charIsLower c) (hnext : charIsLower next) :
    kebabSplit prev c next = false := by
  have hnup : ¬ charIsUpper c := fun hu => absurd (le_trans hc.1 hu.2) (by decide)
  have hndig : ¬ charIsDigit c := fun hd => absurd (le_trans hc.1 hd.2) (by decide)
  have hnu : ¬ charIsUpper next := fun hu => absurd (le_trans hnext.1 hu.2) (by decide)
  have hnd : ¬ charIsDigit next := fun hd => absurd (le_trans hnext.1 hd.2) (by decide)
  unfold kebabSplit
  rw [if_neg]
  rintro (⟨hu, _⟩ | ⟨_, (hu | hd)⟩ | ⟨hd, _⟩)
  · exact hnup hu
  · exact hnu hu
  · exact hnd hd
  · exact hndig hd

/-- One-step unfolding of the kebab-case loop on a cons cell. -/
theorem kebabAuxCons (prev : Option Char) (c : Char) (rest : List Char) :
    kebabAux prev (c :: rest) =
      (if (match rest with
            | [] => false
            | next :: _ => kebabSplit prev c next) then
        (if charIsUpper c then goLower c else c) :: '-' :: kebabAux (some c) rest
      else
        (if ((if charIsUpper c then goLower c else c) = ' ' ∨
              (if charIsUpper c then goLower c else c) = '_' ∨
              (if charIsUpper c then goLower c else c) = '-' ∨
              (if charIsUpper c then goLower c else c) = '.') ∧
            (if charIsUpper c then goLower c else c) ≠ '-' then '-'
          else (if charIsUpper c then goLower c else c)) :: kebabAux (some c) rest) :=
  rfl

/-- The kebab-case loop is the identity on lowercase ASCII letters. -/
theorem kebabAuxLowerId :
    ∀ (l : List Char), (∀ c ∈ l, charIsLower c) → ∀ prev, kebabAux prev l = l := by
  intro l
  induction l with
  | nil => intro _ _; rfl
  | cons c rest ih =>
      intro h prev
      have hc : charIsLower c := h c (List.mem_cons_self _ _)
      have hrest : ∀ x ∈ rest, charIsLower x := by
        intro x hx; exact h x (List.mem_cons_of_mem _ hx)
      have hnup : ¬ charIsUpper c := fun hu => absurd (le_trans hc.1 hu.2) (by decide)
      have hspec : ¬ ((c = ' ' ∨ c = '_' ∨ c = '-' ∨ c = '.') ∧ c ≠ '-') := by
        rintro ⟨(rfl | rfl | rfl | rfl), _⟩ <;> exact absurd hc.1 (by decide)
      rw [kebabAuxCons, if_neg hnup, if_neg hspec, ih hrest (some c)]
      cases rest with
      | nil => rfl
      | cons next rest2 =>
          have hnext : charIsLower next := hrest next (List.mem_cons_self _ _)
          have hs := kebabSplitLowerFalse prev hc hnext
          show (if kebabSplit prev c next = true then _ else _) = _
          rw [hs]
          rfl

/-- cloudAttName is the identity on lowercase ASCII letter strings. -/
theorem cloudAttNameLowerId {a : String} (h : lowerAlphaStr a) :
    cloudAttName a = a := by
  unfold cloudAttName toKebab
  have hdots : dotsTo '-' a.data = a.data := by
    have : ∀ c ∈ a.data, (if c = '.' then '-' else c) = c := by
      intro c hc
      rw [if_neg]
      rintro rfl
      exact absurd (h _ hc).1 (by decide)
    calc dotsTo '-' a.data = a.data.map id := List.map_congr_left this
    _ = a.data := List.map_id _
  have hns : ∀ c ∈ a.data, c ≠ ' ' := by
    rintro c hc rfl
    exact absurd (h _ hc).1 (by decide)
  refine stringDataInj ?_
  show kebabAux none (trimSpaces (String.mk (dotsTo '-' a.data)).data) = a.data
  rw [show (String.mk (dotsTo '-' a.data)).data = dotsTo '-' a.data from rfl]
  rw [hdots, trimSpacesEqSelf hns]
  exact kebabAuxLowerId a.data h none

/-- Claim C3 (amended): export-name generation is injective only in restricted
forms. For a fixed stack name, ExpRefName is injective in the ref; for a fixed
stack name and ref, ExpAttName is injective in the attribute provided the
attributes are lowercase ASCII letter strings. Across stack names, across the
two export kinds, or for general attribute strings, collisions exist. -/
theorem exportNames_injective_restricted :
    (∀ s r₁ r₂ : String, r₁ ≠ r₂ → expRefName s r₁ ≠ expRefName s r₂) ∧
    (∀ s r a₁ a₂ : String, lowerAlphaStr a₁ → lowerAlphaStr a₂ → a₁ ≠ a₂ →
      expAttName s r a₁ ≠ expAttName s r a₂) := by
  constructor
  · intro s r₁ r₂ hne heq
    apply hne
    have hdata := congrArg String.data heq
    unfold expRefName cloudRefName at hdata
    repeat rw [String.data_append] at hdata
    have h1 := List.append_cancel_left hdata
    exact stringDataInj (List.append_cancel_right h1)
  · intro s r a₁ a₂ hl₁ hl₂ hne heq
    apply hne
    have heq' : cloudAttName a₁ = cloudAttName a₂ := by
      have hdata := congrArg String.data heq
      unfold expAttName cloudRefName at hdata
      repeat rw [String.data_append] at hdata
      exact stringDataInj (List.append_cancel_left hdata)
    rw [cloudAttNameLowerId hl₁, cloudAttNameLowerId hl₂] at heq'
    exact heq'

/-- Witness for the amended claim C3 at concrete refs and attributes. -/
theorem exportNames_injective_restricted_witness :
    expRefName ("s") ("aa") ≠ expRefName ("s") ("bb") ∧
      expAttName ("s") ("r") ("aa") ≠ expAttName ("s") ("r") ("ab") :=
  ⟨exportNames_injective_restricted.1 _ _ _ (by decide),
    exportNames_injective_restricted.2 _ _ _ _ (by decide) (by decide) (by decide)⟩

/-- The slice of an awscft.Stack read by cloudExports: the stack name (owning
deployment unit) and the output key/value pairs. -/
structure AwsStack where
  stackName : String
  outputs : List (String × String)
deriving DecidableEq

/-- cloudExports.GetRef: scan the stack outputs for the ExpRefRef key; on a
miss the code panics with an errorz error naming only the camel-cased ref. -/
def getRef (st : AwsStack) (r : String) : Except String String :=
  match st.outputs.find? (fun o => o.1 == expRefRef r) with
  | some o => Except.ok o.2
  | none => Except.error ("no such export: ref for " ++ cloudRefRef r)

/-- cloudExports.GetAtt: scan the stack outputs for the ExpAttRef key; on a
miss the code panics with an errorz error naming the attribute and the ref. -/
def getAtt (st : AwsStack) (r a : String) : Except String String :=
  match st.outputs.find? (fun o => o.1 == expAttRef r a) with
  | some o => Except.ok o.2
  | none => Except.error ("no such export: att " ++ a ++ " for ref " ++ r)

/-- Claim C5 counterexample: the not-found error of GetRef and GetAtt does not
name the owning component. Two stacks belonging to different plugins produce
byte-identical error messages, so the error cannot identify the owning plugin;
the message names only the ref (and attribute). -/
theorem cloudExports_error_lacks_component :
    getRef ⟨("myapp-stg-pluginA"), []⟩ ("r") = getRef ⟨("myapp-stg-pluginB"), []⟩ ("r") ∧
    getRef ⟨("myapp-stg-pluginA"), []⟩ ("r") =
      Except.error ("no such export: ref for R") ∧
    getAtt ⟨("myapp-stg-pluginA"), []⟩ ("r") ("Arn") =
      getAtt ⟨("myapp-stg-pluginB"), []⟩ ("r") ("Arn") ∧
    getAtt ⟨("myapp-stg-pluginA"), []⟩ ("r") ("Arn") =
      Except.error ("no such export: att Arn for ref r") := by
  refine ⟨rfl, rfl, rfl, rfl⟩

/-- Claim C5 (amended): a Reference Registry lookup against a stack whose
outputs lack the requested export fails with an explicit no-such-export error
that names the requested ref (and, for GetAtt, the attribute) — never a nil
dereference — but it does not name the owning component. -/
theorem cloudExports_notFound_spec (st : AwsStack) (r a : String)
    (h1 : ∀ o ∈ st.outputs, o.1 ≠ expRefRef r)
    (h2 : ∀ o ∈ st.outputs, o.1 ≠ expAttRef r a) :
    getRef st r = Except.error ("no such export: ref for " ++ cloudRefRef r) ∧
    getAtt st r a = Except.error ("no such export: att " ++ a ++ " for ref " ++ r) := by
  constructor
  · unfold getRef
    have : st.outputs.find? (fun o => o.1 == expRefRef r) = none := by
      rw [List.find?_eq_none]
      intro o ho
      exact fun hbeq => h1 o ho (beq_iff_eq.mp hbeq)
    rw [this]
  · unfold getAtt
    have : st.outputs.find? (fun o => o.1 == expAttRef r a) = none := by
      rw [List.find?_eq_none]
      intro o ho
      exact fun hbeq => h2 o ho (beq_iff_eq.mp hbeq)
    rw [this]

/-- Witness for the amended claim C5 at a concrete stack with one unrelated
output. -/
theorem cloudExports_notFound_spec_witness :
    getRef ⟨("s"), [(("K"), ("v"))]⟩ ("r") =
      Except.error ("no such export: ref for " ++ cloudRefRef ("r")) ∧
    getAtt ⟨("s"), [(("K"), ("v"))]⟩ ("r") ("Arn") =
      Except.error ("no such export: att " ++ "Arn" ++ " for ref " ++ "r") :=
  cloudExports_notFound_spec ⟨("s"), [(("K"), ("v"))]⟩ ("r") ("Arn")
    (by decide) (by decide)

/-- The CloudFormation stack state manipulated by the opz stack operations:
name and current template body. -/
structure CFStackState where
  stackName : String
  templateBody : String
deriving DecidableEq

/-- The CloudFormation service state: the existing stacks. -/
abbrev CFEnv := List CFStackState

/-- operationsImpl.DescribeStack: a describe call returning nil when the
stack does not exist. -/
def describeStack (env : CFEnv) (name : String) : Option CFStackState :=
  env.find? (fun s => s.stackName == name)

/-- Boolean list prefix test over characters. -/
def isPrefixCh : List Char → List Char → Bool
  | [], _ => true
  | _ :: _, [] => false
  | a :: as, b :: bs => (a == b) && isPrefixCh as bs

/-- Boolean substring test over characters, as strings.Contains. -/
def hasSubstr : List Char -> List Char -> Bool
  | _, [] => true
  | [], _ :: _ => false
  | c :: t, n :: ns => isPrefixCh (n :: ns) (c :: t) || hasSubstr t (n :: ns)

/-- strings.Contains on strings. -/
def strContains (s sub : String) : Bool := hasSubstr s.data sub.data

/-- Behavior of the AWS UpdateStack API call: absent stack is an error; an
identical template is the No-updates error; otherwise the named stack gets the
new template. -/
def awsUpdateStack (env : CFEnv) (name tpl : String) : Except String CFEnv :=
  match describeStack env name with
  | none => Except.error ("Stack with id " ++ name ++ " does not exist")
  | some s =>
      if s.templateBody = tpl then
        Except.error ("No updates are to be performed.")
      else
        Except.ok (env.map (fun t =>
          if t.stackName == name then { t with templateBody := tpl } else t))

/-- Behavior of the AWS CreateStack API call: an existing stack is an error;
otherwise the stack is created with the given template. -/
def awsCreateStack (env : CFEnv) (name tpl : String) : Except String CFEnv :=
  match describeStack env name with
  | some _ => Except.error ("stack already exists")
  | none => Except.ok (⟨name, tpl⟩ :: env)

/-- operationsImpl.CreateStack: create, wait, then describe; any error is
fatal (errorz.MaybeMustWrap). -/
def opCreateStack (env : CFEnv) (name tpl : String) :
    Except String (CFEnv × CFStackState) :=
  match awsCreateStack env name tpl with
  | Except.error e => Except.error e
  | Except.ok envNew =>
      match describeStack envNew name with
      | some s => Except.ok (envNew, s)
      | none => Except.error ("unexpected number of stacks")

/-- operationsImpl.UpdateStack: update, wait, then describe; an error whose
message contains the No-updates marker is treated as success by returning the
current describe result; any other error is fatal. -/
def opUpdateStack (env : CFEnv) (name tpl : String) :
    Except String (CFEnv × CFStackState) :=
  match awsUpdateStack env name tpl with
  | Except.error e =>
      if strContains e ("No updates are to be performed") then
        match describeStack env name with
        | some s => Except.ok (env, s)
        | none => Except.error ("unexpected number of stacks")
      else Except.error e
  | Except.ok envNew =>
      match describeStack envNew name with
      | some s => Except.ok (envNew, s)
      | none => Except.error ("unexpected number of stacks")

/-- operationsImpl.UpsertStack: describe; create when absent, update when
present. -/
def upsertStack (env : CFEnv) (name tpl : String) :
    Except String (CFEnv × CFStackState) :=
  match describeStack env name with
  | none => opCreateStack env name tpl
  | some _ => opUpdateStack env name tpl

/-- Updating only the named stack preserves what describe finds: the first
match gets the new template body. -/
theorem describeStackMapUpdate :
    ∀ (env : CFEnv) (name tpl : String) (s : CFStackState),
      describeStack env name = some s →
      describeStack (env.map (fun t =>
          if t.stackName == name then { t with templateBody := tpl } else t)) name =
        some { s with templateBody := tpl } := by
  intro env
  induction env with
  | nil => intro name tpl s h; cases h
  | cons t rest ih =>
      intro name tpl s h
      cases hbeq : (t.stackName == name) with
      | true =>
          have hs : s = t := by
            unfold describeStack at h
            unfold List.find? at h
            rw [hbeq] at h
            cases h
            rfl
          rw [hs]
          unfold describeStack
          show (((if (t.stackName == name) = true then { t with templateBody := tpl }
            else t) :: rest.map (fun t =>
              if t.stackName == name then { t with templateBody := tpl } else t)).find?
                (fun s => s.stackName == name)) = _
          rw [if_pos hbeq]
          unfold List.find?
          have hb2 : (({ t with templateBody := tpl } : CFStackState).stackName == name) = true := hbeq
          rw [hb2]
      | false =>
          have hrest : describeStack rest name = some s := by
            unfold describeStack at h
            unfold List.find? at h
            rw [hbeq] at h
            exact h
          have := ih name tpl s hrest
          unfold describeStack
          show (((if (t.stackName == name) = true then { t with templateBody := tpl }
            else t) :: rest.map (fun t =>
              if t.stackName == name then { t with templateBody := tpl } else t)).find?
                (fun s => s.stackName == name)) = _
          rw [if_neg (by rw [hbeq]; intro hc; cases hc)]
          unfold List.find?
          rw [hbeq]
          exact this

/-- Claim C4: UpsertStack creates the stack when describe reports it absent,
updates it when it exists with a differing template, and when the update
attempt reports nothing to change it returns the current stack state as
success, never a failure. -/
theorem upsertStack_spec (env : CFEnv) (name tpl : String) :
    (describeStack env name = none →
      upsertStack env name tpl =
        Except.ok ((⟨name, tpl⟩ : CFStackState) :: env, (⟨name, tpl⟩ : CFStackState))) ∧
    (∀ s, describeStack env name = some s → s.templateBody ≠ tpl →
      upsertStack env name tpl =
        Except.ok (env.map (fun t =>
            if t.stackName == name then { t with templateBody := tpl } else t),
          { s with templateBody := tpl })) ∧
    (∀ s, describeStack env name = some s → s.templateBody = tpl →
      upsertStack env name tpl = Except.ok (env, s)) := by
  refine ⟨?_, ?_, ?_⟩
  · intro h
    have hfind : describeStack ((⟨name, tpl⟩ : CFStackState) :: env) name =
        some ⟨name, tpl⟩ := by
      unfold describeStack
      unfold List.find?
      rw [show ((⟨name, tpl⟩ : CFStackState).stackName == name) = true from
        beq_iff_eq.mpr rfl]
    simp only [upsertStack, h, opCreateStack, awsCreateStack, hfind]
  · intro s hs hne
    have hup : awsUpdateStack env name tpl =
        Except.ok (env.map (fun t =>
          if t.stackName == name then { t with templateBody := tpl } else t)) := by
      unfold awsUpdateStack
      rw [hs]
      exact if_neg hne
    have hdesc := describeStackMapUpdate env name tpl s hs
    simp only [upsertStack, hs, opUpdateStack, hup, hdesc]
  · intro s hs heq
    have hup : awsUpdateStack env name tpl =
        Except.error ("No updates are to be performed.") := by
      unfold awsUpdateStack
      rw [hs]
      exact if_pos heq
    simp only [upsertStack, hs, opUpdateStack, hup]
    rw [show strContains ("No updates are to be performed.")
      ("No updates are to be performed") = true from rfl]
    simp only [hs]
    rw [if_pos trivial]

/-- Witness for claim C4 at a one-stack environment: absent name creates,
existing name with new template updates, identical template is a no-op
success. -/
theorem upsertStack_spec_witness :
    upsertStack [⟨("s1"), ("t1")⟩] ("s2") ("t2") =
      Except.ok ((⟨("s2"), ("t2")⟩ : CFStackState) :: [⟨("s1"), ("t1")⟩],
        (⟨("s2"), ("t2")⟩ : CFStackState)) ∧
    upsertStack [⟨("s1"), ("t1")⟩] ("s1") ("t2") =
      Except.ok (List.map (fun t =>
          if t.stackName == ("s1") then { t with templateBody := ("t2") } else t)
          [⟨("s1"), ("t1")⟩],
        { (⟨("s1"), ("t1")⟩ : CFStackState) with templateBody := ("t2") }) ∧
    upsertStack [⟨("s1"), ("t1")⟩] ("s1") ("t1") =
      Except.ok ([⟨("s1"), ("t1")⟩], (⟨("s1"), ("t1")⟩ : CFStackState)) :=
  ⟨(upsertStack_spec _ _ _).1 (by decide),
    (upsertStack_spec _ _ _).2.1 _ rfl (by decide),
    (upsertStack_spec _ _ _).2.2 _ rfl rfl⟩

/-- Outcome of calling a Go method that may panic: a normal value, an errorz
assertion panic with its message, or an anonymous nil-pointer dereference. -/
inductive GoOutcome (α : Type) where
  | ok (a : α)
  | assertErr (msg : String)
  | nilDeref

/-- The part of APIConfig read by the accessors: the Name field and the Stage. -/
structure APIConfigModel where
  name : String
  stageName : String

/-- The apiImpl state: the config pointer (nil before Configure) and the two
metadata pointers (nil before hydration). -/
structure APIState where
  cfg : Option APIConfigModel
  localMetadata : Option String
  cloudMetadata : Option AwsStack

/-- A freshly constructed apiImpl, before Configure is called. -/
def apiUnconfigured : APIState := ⟨none, none, none⟩

/-- apiImpl.GetInstanceName: returns stringz.Ptr(p.cfg.Name) with no nil
check, so an unconfigured plugin dereferences the nil config pointer. -/
def apiGetInstanceName (p : APIState) : GoOutcome String :=
  match p.cfg with
  | none => GoOutcome.nilDeref
  | some c => GoOutcome.ok c.name

/-- apiImpl.GetStage: asserts that the config is set, with an error prefixed
by the plugin name, then returns the configured Stage. -/
def apiGetStage (p : APIState) : GoOutcome String :=
  match p.cfg with
  | none => GoOutcome.assertErr ("api: plugin not configured")
  | some c => GoOutcome.ok c.stageName

/-- apiImpl.GetLocalMetadata: asserts that local metadata is set, with an
error prefixed by the plugin name. -/
def apiGetLocalMetadata (p : APIState) : GoOutcome String :=
  match p.localMetadata with
  | none => GoOutcome.assertErr ("api: local not deployed")
  | some m => GoOutcome.ok m

/-- apiImpl.GetCloudMetadata: asserts that cloud metadata is set when required,
with an error prefixed by the plugin name; otherwise returns the pointer. -/
def apiGetCloudMetadata (p : APIState) (req : Bool) : GoOutcome (Option AwsStack) :=
  if req && p.cloudMetadata.isNone then GoOutcome.assertErr ("api: cloud not deployed")
  else GoOutcome.ok p.cloudMetadata

/-- Claim C8: the claim states that every plugin method called before
Configure fails with a clear not-configured error naming the component, never
an anonymous nil-pointer panic. The metadata accessors and GetStage do fail
with named assertion errors, but GetInstanceName dereferences the nil config
with no check, producing an anonymous nil-pointer panic on an unconfigured
plugin. -/
theorem apiGetInstanceName_nilDeref_before_configure :
    apiGetInstanceName apiUnconfigured = GoOutcome.nilDeref ∧
    apiGetStage apiUnconfigured = GoOutcome.assertErr ("api: plugin not configured") ∧
    apiGetLocalMetadata apiUnconfigured =
      GoOutcome.assertErr ("api: local not deployed") ∧
    apiGetCloudMetadata apiUnconfigured true =
      GoOutcome.assertErr ("api: cloud not deployed") ∧
    apiGetCloudMetadata apiUnconfigured false = GoOutcome.ok none := by
  refine ⟨rfl, rfl, rfl, rfl, rfl⟩

/-- Commands issued by the local Stage driver, in order. -/
inductive LocalCmd where
  | composeDown
  | composeUp
  | hookBeforeCreate (plugin : Nat)
  | hookAfterCreate (plugin : Nat)
deriving DecidableEq

/-- localStageImpl.Destroy: one docker-compose down invocation tearing down
all services, volumes and orphans. -/
def destroyTrace : List LocalCmd := [LocalCmd.composeDown]

/-- localStageImpl.Create: Destroy first, then the before-create hook of every
plugin in wave order, then one docker-compose up applying the composed
template, then the after-create hook of every plugin. -/
def createTrace (plugins : List Nat) : List LocalCmd :=
  destroyTrace ++ plugins.map LocalCmd.hookBeforeCreate ++
    [LocalCmd.composeUp] ++ plugins.map LocalCmd.hookAfterCreate

/-- Effect of one command on the set of running services: down removes every
running service, up starts exactly the services of the composed template,
hooks do not change running services. -/
def applyLocalCmd (tplServices : List String) (running : List String) :
    LocalCmd → List String
  | LocalCmd.composeDown => []
  | LocalCmd.composeUp => tplServices
  | LocalCmd.hookBeforeCreate _ => running
  | LocalCmd.hookAfterCreate _ => running

/-- Running-service state after a command sequence. -/
def runLocalTrace (tplServices running : List String) (cmds : List LocalCmd) :
    List String :=
  cmds.foldl (applyLocalCmd tplServices) running

/-- Running-service state after one Create invocation. -/
def createRun (tplServices : List String) (plugins : List Nat)
    (running : List String) : List String :=
  runLocalTrace tplServices running (createTrace plugins)

/-- Before-create hooks do not change the running services. -/
theorem runBeforeHooksNoop (tplServices running : List String) :
    ∀ plugins : List Nat,
      runLocalTrace tplServices running (plugins.map LocalCmd.hookBeforeCreate) =
        running := by
  intro plugins
  induction plugins generalizing running with
  | nil => rfl
  | cons p ps ih => exact ih running

/-- After-create hooks do not change the running services. -/
theorem runAfterHooksNoop (tplServices running : List String) :
    ∀ plugins : List Nat,
      runLocalTrace tplServices running (plugins.map LocalCmd.hookAfterCreate) =
        running := by
  intro plugins
  induction plugins generalizing running with
  | nil => rfl
  | cons p ps ih => exact ih running

/-- Claim C9: Create always destroys any prior running instance first. The
trace of a Create invocation starts with the teardown, before any
before-create hook and before the compose apply; the teardown empties the
running services whatever was running; and the final state after a Create is
exactly the composed template services, independent of the prior state — in
particular a second Create leaves no duplicate or orphaned service from the
first. -/
theorem localCreate_destroys_first (tplServices : List String)
    (plugins : List Nat) (running : List String) :
    (createTrace plugins).head? = some LocalCmd.composeDown ∧
    runLocalTrace tplServices running destroyTrace = [] ∧
    createRun tplServices plugins running = tplServices ∧
    createRun tplServices plugins (createRun tplServices plugins running) =
      tplServices := by
  have hcreate : ∀ r : List String, createRun tplServices plugins r = tplServices := by
    intro r
    unfold createRun createTrace destroyTrace runLocalTrace
    rw [List.foldl_append, List.foldl_append, List.foldl_append]
    show (runLocalTrace tplServices
      (runLocalTrace tplServices
        (runLocalTrace tplServices
          (runLocalTrace tplServices r [LocalCmd.composeDown])
          (plugins.map LocalCmd.hookBeforeCreate))
        [LocalCmd.composeUp])
      (plugins.map LocalCmd.hookAfterCreate)) = tplServices
    rw [show runLocalTrace tplServices r [LocalCmd.composeDown] = [] from rfl]
    rw [runBeforeHooksNoop]
    rw [show runLocalTrace tplServices [] [LocalCmd.composeUp] = tplServices from rfl]
    rw [runAfterHooksNoop]
  exact ⟨rfl, rfl, hcreate running, hcreate _⟩

/-- The two plugin behaviors relevant to the Stage drivers: a normal plugin
with a cloud footprint (apiImpl, functionImpl, ...) and the mailer, whose
GetCloudTemplate returns nil, whose UpdateCloudMetadata does nothing, and
whose IsDeployed always returns false. -/
inductive PlugKind where
  | normal
  | mailer
deriving DecidableEq

/-- The plugin state read and written by the Stage drivers. -/
structure PlugSt where
  kind : PlugKind
  stackName : String
  cloudTpl : String
  configured : Bool
  localMetadata : Option String
  cloudMetadata : Option CFStackState
deriving DecidableEq

/-- Plugin.Configure: fixes the config. -/
def plugConfigure (p : PlugSt) : PlugSt := { p with configured := true }

/-- Plugin.GetCloudTemplate: nil for the mailer, the template body otherwise. -/
def plugGetCloudTemplate (p : PlugSt) : Option String :=
  match p.kind with
  | PlugKind.mailer => none
  | PlugKind.normal => some p.cloudTpl

/-- Plugin.UpdateCloudMetadata: a no-op for the mailer, hydrates the cloud
metadata from the deployed stack otherwise. -/
def plugUpdateCloudMetadata (p : PlugSt) (s : CFStackState) : PlugSt :=
  match p.kind with
  | PlugKind.mailer => p
  | PlugKind.normal => { p with cloudMetadata := some s }

/-- Plugin.IsDeployed: always false for the mailer, cloud metadata presence
otherwise. -/
def plugIsDeployed (p : PlugSt) : Bool :=
  match p.kind with
  | PlugKind.mailer => false
  | PlugKind.normal => p.cloudMetadata.isSome

/-- Plugin.UpdateLocalTemplate: populates the local metadata (here abstracted
to the container name derived from the plugin identity) while contributing the
plugin services to the shared compose template. -/
def plugUpdateLocalTemplate (p : PlugSt) : PlugSt :=
  { p with localMetadata := some p.stackName }

/-- The operations service as seen by the cloud Stage: the CloudFormation
environment plus a log of the stack names upserted so far (the commits). -/
structure OpsLog where
  env : CFEnv
  upserts : List String
deriving DecidableEq

/-- operations.UpsertStack through the log: records the committed stack name. -/
def opsUpsertStack (o : OpsLog) (name tpl : String) :
    Except String (OpsLog × CFStackState) :=
  match upsertStack o.env name tpl with
  | Except.ok (envNew, s) =>
      Except.ok ({ env := envNew, upserts := o.upserts ++ [name] }, s)
  | Except.error e => Except.error e

/-- NewCloudStage: for every plugin in wave order, Configure it and, when a
stack with its name already exists on describe, hydrate its cloud metadata
from that stack. No stack is upserted. -/
def newCloudStage (o : OpsLog) (ps : List PlugSt) : OpsLog × List PlugSt :=
  (o, ps.map (fun p =>
    match describeStack o.env (plugConfigure p).stackName with
    | some s => plugUpdateCloudMetadata (plugConfigure p) s
    | none => plugConfigure p))

/-- NewLocalStage: for every plugin in wave order, Configure it and run its
UpdateLocalTemplate against the shared compose template; no compose command is
invoked during construction. -/
def localStageBuild (ps : List PlugSt) : List PlugSt × List LocalCmd :=
  (ps.map (fun p => plugUpdateLocalTemplate (plugConfigure p)), [])

/-- One plugin step of cloudStageImpl.Deploy: skip when GetCloudTemplate is
nil, otherwise upsert the stack and hydrate the cloud metadata from the
result. -/
def deployPlugin (o : OpsLog) (p : PlugSt) : Except String (OpsLog × PlugSt) :=
  match plugGetCloudTemplate p with
  | none => Except.ok (o, p)
  | some tpl =>
      match opsUpsertStack o p.stackName tpl with
      | Except.ok (oNew, s) => Except.ok (oNew, plugUpdateCloudMetadata p s)
      | Except.error e => Except.error e

/-- cloudStageImpl.Deploy over the flattened wave order; a stack-operation
failure aborts the remaining deploy. -/
def deployStage : OpsLog → List PlugSt → Except String (OpsLog × List PlugSt)
  | o, [] => Except.ok (o, [])
  | o, p :: ps =>
      match deployPlugin o p with
      | Except.error e => Except.error e
      | Except.ok (oNew, pNew) =>
          match deployStage oNew ps with
          | Except.error e => Except.error e
          | Except.ok (oFin, psNew) => Except.ok (oFin, pNew :: psNew)

/-- cloudStageImpl.IsDeployed: the loop folds the conjunction of IsDeployed
over every plugin of every wave, starting from true. -/
def stageIsDeployed (ps : List PlugSt) : Bool :=
  ps.foldl (fun acc p => acc && plugIsDeployed p) true

/-- Claim C7 counterexample: metadata is populated before any commit. When a
plugin stack already exists, NewCloudStage hydrates the plugin cloud metadata
during Stage construction while performing zero upserts; and the local
template-build pass of NewLocalStage populates local metadata while invoking
zero compose commands, before any Create. -/
theorem metadata_populated_at_construction :
    (newCloudStage ⟨[⟨("stk"), ("told")⟩], []⟩
        [⟨PlugKind.normal, ("stk"), ("tnew"), false, none, none⟩]).2 =
      [⟨PlugKind.normal, ("stk"), ("tnew"), true, none, some ⟨("stk"), ("told")⟩⟩] ∧
    (newCloudStage ⟨[⟨("stk"), ("told")⟩], []⟩
        [⟨PlugKind.normal, ("stk"), ("tnew"), false, none, none⟩]).1.upserts = [] ∧
    (localStageBuild [⟨PlugKind.normal, ("stk"), ("tnew"), false, none, none⟩]).1 =
      [⟨PlugKind.normal, ("stk"), ("tnew"), true, some ("stk"), none⟩] ∧
    (localStageBuild [⟨PlugKind.normal, ("stk"), ("tnew"), false, none, none⟩]).2 =
      [] := by
  refine ⟨rfl, rfl, rfl, rfl⟩

/-- Claim C7 (amended): cloud metadata is populated after each successful
upsert during Deploy, and additionally during Stage construction for plugins
whose stack already exists on describe (rehydration); Stage construction
itself performs no upsert and leaves metadata empty when the stack is absent.
Local metadata is populated during the template-build pass of NewLocalStage,
inside UpdateLocalTemplate, with no compose command executed. -/
theorem metadata_population_policy :
    (∀ (o : OpsLog) (ps : List PlugSt), (newCloudStage o ps).1 = o) ∧
    (∀ (o : OpsLog) (p : PlugSt), describeStack o.env p.stackName = none →
      (newCloudStage o [p]).2 = [plugConfigure p]) ∧
    (∀ (o : OpsLog) (p : PlugSt) (s : CFStackState),
      describeStack o.env p.stackName = some s →
      (newCloudStage o [p]).2 = [plugUpdateCloudMetadata (plugConfigure p) s]) ∧
    (∀ (o oNew : OpsLog) (p pNew : PlugSt), p.kind = PlugKind.normal →
      deployPlugin o p = Except.ok (oNew, pNew) →
      oNew.upserts = o.upserts ++ [p.stackName] ∧
        pNew.cloudMetadata.isSome = true) ∧
    (∀ ps : List PlugSt, (localStageBuild ps).2 = [] ∧
      ∀ q ∈ (localStageBuild ps).1, q.localMetadata.isSome = true) := by
  refine ⟨?_, ?_, ?_, ?_, ?_⟩
  · intro o ps; rfl
  · intro o p h
    show [match describeStack o.env (plugConfigure p).stackName with
      | some s => plugUpdateCloudMetadata (plugConfigure p) s
      | none => plugConfigure p] = [plugConfigure p]
    rw [show describeStack o.env (plugConfigure p).stackName = none from h]
  · intro o p s h
    show [match describeStack o.env (plugConfigure p).stackName with
      | some s => plugUpdateCloudMetadata (plugConfigure p) s
      | none => plugConfigure p] = [plugUpdateCloudMetadata (plugConfigure p) s]
    rw [show describeStack o.env (plugConfigure p).stackName = some s from h]
  · intro o oNew p pNew hk hdep
    have htpl : plugGetCloudTemplate p = some p.cloudTpl := by
      unfold plugGetCloudTemplate
      rw [hk]
    unfold deployPlugin at hdep
    rw [htpl] at hdep
    have hdep2 : (match opsUpsertStack o p.stackName p.cloudTpl with
        | Except.ok (oNew, s) => Except.ok (oNew, plugUpdateCloudMetadata p s)
        | Except.error e => Except.error e) = Except.ok (oNew, pNew) := hdep
    clear hdep
    cases hup : opsUpsertStack o p.stackName p.cloudTpl with
    | error e => rw [hup] at hdep2; cases hdep2
    | ok pair =>
        obtain ⟨o2, s⟩ := pair
        rw [hup] at hdep2
        cases hdep2
        have hmeta : plugUpdateCloudMetadata p s =
            { p with cloudMetadata := some s } := by
          unfold plugUpdateCloudMetadata
          rw [hk]
        constructor
        · unfold opsUpsertStack at hup
          cases hups : upsertStack o.env p.stackName p.cloudTpl with
          | error e => rw [hups] at hup; cases hup
          | ok pair2 =>
              obtain ⟨envNew, s2⟩ := pair2
              rw [hups] at hup
              cases hup
              rfl
        · rw [hmeta]
          rfl
  · intro ps
    refine ⟨rfl, ?_⟩
    intro q hq
    obtain ⟨a, _, ha⟩ := List.mem_map.mp hq
    rw [← ha]
    rfl

/-- Witness for the amended claim C7 at concrete one-plugin stages: absent
stack (no hydration at construction), present stack (hydration at
construction), and one deploy step that commits then hydrates. -/
theorem metadata_population_policy_witness :
    (newCloudStage ⟨[], []⟩
        [⟨PlugKind.normal, ("stk"), ("t"), false, none, none⟩]).2 =
      [plugConfigure ⟨PlugKind.normal, ("stk"), ("t"), false, none, none⟩] ∧
    (newCloudStage ⟨[⟨("stk"), ("told")⟩], []⟩
        [⟨PlugKind.normal, ("stk"), ("t"), false, none, none⟩]).2 =
      [plugUpdateCloudMetadata
        (plugConfigure ⟨PlugKind.normal, ("stk"), ("t"), false, none, none⟩)
        ⟨("stk"), ("told")⟩] ∧
    ((⟨[⟨("stk"), ("t")⟩], [("stk")]⟩ : OpsLog).upserts =
        (⟨[], []⟩ : OpsLog).upserts ++ [("stk")] ∧
      ({ (⟨PlugKind.normal, ("stk"), ("t"), true, none, none⟩ : PlugSt) with
          cloudMetadata := some ⟨("stk"), ("t")⟩ } : PlugSt).cloudMetadata.isSome =
        true) :=
  ⟨metadata_population_policy.2.1 ⟨[], []⟩
      ⟨PlugKind.normal, ("stk"), ("t"), false, none, none⟩ rfl,
    metadata_population_policy.2.2.1 ⟨[⟨("stk"), ("told")⟩], []⟩
      ⟨PlugKind.normal, ("stk"), ("t"), false, none, none⟩ ⟨("stk"), ("told")⟩ rfl,
    metadata_population_policy.2.2.2.1 ⟨[], []⟩ ⟨[⟨("stk"), ("t")⟩], [("stk")]⟩
      ⟨PlugKind.normal, ("stk"), ("t"), true, none, none⟩
      ({ (⟨PlugKind.normal, ("stk"), ("t"), true, none, none⟩ : PlugSt) with
          cloudMetadata := some ⟨("stk"), ("t")⟩ })
      rfl rfl⟩

/-- The IsDeployed fold is the Boolean conjunction over all plugins. -/
theorem stageIsDeployedEqAll :
    ∀ (ps : List PlugSt) (b : Bool),
      ps.foldl (fun acc p => acc && plugIsDeployed p) b =
        (b && ps.all plugIsDeployed) := by
  intro ps
  induction ps with
  | nil => intro b; rw [List.all_nil, Bool.and_true]; rfl
  | cons p t ih =>
      intro b
      show t.foldl _ (b && plugIsDeployed p) = _
      rw [ih (b && plugIsDeployed p), List.all_cons, Bool.and_assoc]

/-- UpdateCloudMetadata does not change the plugin kind. -/
theorem plugUpdateCloudMetadataKind (p : PlugSt) (s : CFStackState) :
    (plugUpdateCloudMetadata p s).kind = p.kind := by
  unfold plugUpdateCloudMetadata
  cases hk : p.kind with
  | mailer => exact hk
  | normal => rfl

/-- One deploy step does not change the plugin kind. -/
theorem deployPluginKind {o oNew : OpsLog} {p pNew : PlugSt}
    (h : deployPlugin o p = Except.ok (oNew, pNew)) : pNew.kind = p.kind := by
  unfold deployPlugin at h
  cases htpl : plugGetCloudTemplate p with
  | none => rw [htpl] at h; cases h; rfl
  | some tpl =>
      rw [htpl] at h
      have h2 : (match opsUpsertStack o p.stackName tpl with
          | Except.ok (oNew, s) => Except.ok (oNew, plugUpdateCloudMetadata p s)
          | Except.error e => Except.error e) = Except.ok (oNew, pNew) := h
      cases hup : opsUpsertStack o p.stackName tpl with
      | error e => rw [hup] at h2; cases h2
      | ok pair =>
          obtain ⟨o2, s⟩ := pair
          rw [hup] at h2
          cases h2
          exact plugUpdateCloudMetadataKind p s

/-- A successful deploy keeps a mailer plugin in the resulting plugin list. -/
theorem deployStageMailerMem :
    ∀ (ps : List PlugSt) (o oNew : OpsLog) (psNew : List PlugSt),
      deployStage o ps = Except.ok (oNew, psNew) →
      (∃ p ∈ ps, p.kind = PlugKind.mailer) →
      ∃ q ∈ psNew, q.kind = PlugKind.mailer := by
  intro ps
  induction ps with
  | nil =>
      intro o oNew psNew _ hex
      obtain ⟨p, hp, _⟩ := hex
      cases hp
  | cons p t ih =>
      intro o oNew psNew h hex
      have h1 : (match deployPlugin o p with
          | Except.error e => Except.error e
          | Except.ok (oNew2, pNew) =>
              match deployStage oNew2 t with
              | Except.error e => Except.error e
              | Except.ok (oFin, psN) => Except.ok (oFin, pNew :: psN)) =
          Except.ok (oNew, psNew) := h
      cases hdp : deployPlugin o p with
      | error e => rw [hdp] at h1; cases h1
      | ok pair =>
          obtain ⟨o2, p2⟩ := pair
          rw [hdp] at h1
          have h2 : (match deployStage o2 t with
              | Except.error e => Except.error e
              | Except.ok (oFin, psN) => Except.ok (oFin, p2 :: psN)) =
              Except.ok (oNew, psNew) := h1
          cases hds : deployStage o2 t with
          | error e => rw [hds] at h2; cases h2
          | ok pair2 =>
              obtain ⟨o3, ps3⟩ := pair2
              rw [hds] at h2
              cases h2
              obtain ⟨q, hq, hqk⟩ := hex
              rcases List.mem_cons.mp hq with rfl | hq2
              · exact ⟨p2, List.mem_cons_self _ _, by
                  rw [deployPluginKind hdp]; exact hqk⟩
              · obtain ⟨q2, hq2m, hq2k⟩ := ih o2 oNew ps3 hds ⟨q, hq2, hqk⟩
                exact ⟨q2, List.mem_cons_of_mem _ hq2m, hq2k⟩

/-- Claim C10: CloudStage.IsDeployed is the conjunction of IsDeployed over
every plugin of every wave; and since the mailer is skipped by Deploy (nil
cloud template) and its IsDeployed is constantly false, any app containing a
mailer reports IsDeployed false even after a fully successful Deploy. -/
theorem cloudStage_isDeployed_conjunction_mailer :
    (∀ ps : List PlugSt,
      stageIsDeployed ps = true ↔ ∀ p ∈ ps, plugIsDeployed p = true) ∧
    (∀ (o oNew : OpsLog) (ps psNew : List PlugSt),
      (∃ p ∈ ps, p.kind = PlugKind.mailer) →
      deployStage o ps = Except.ok (oNew, psNew) →
      stageIsDeployed psNew = false) := by
  have hall : ∀ ps : List PlugSt,
      stageIsDeployed ps = ps.all plugIsDeployed := by
    intro ps
    unfold stageIsDeployed
    rw [stageIsDeployedEqAll ps true, Bool.true_and]
  constructor
  · intro ps
    rw [hall]
    exact List.all_eq_true
  · intro o oNew ps psNew hex h
    obtain ⟨q, hq, hqk⟩ := deployStageMailerMem ps o oNew psNew h hex
    rw [hall]
    have hqf : plugIsDeployed q = false := by
      unfold plugIsDeployed
      rw [hqk]
    cases hres : psNew.all plugIsDeployed with
    | false => rfl
    | true =>
        have := List.all_eq_true.mp hres q hq
        rw [hqf] at this
        cases this

/-- Witness for claim C10: a two-plugin app (one normal plugin, one mailer)
deployed successfully from an empty environment still reports IsDeployed
false. -/
theorem cloudStage_isDeployed_conjunction_mailer_witness :
    stageIsDeployed
      [{ (⟨PlugKind.normal, ("stk"), ("t"), true, none, none⟩ : PlugSt) with
          cloudMetadata := some ⟨("stk"), ("t")⟩ },
        ⟨PlugKind.mailer, ("m"), (""), true, none, none⟩] = false :=
  cloudStage_isDeployed_conjunction_mailer.2 ⟨[], []⟩ ⟨[⟨("stk"), ("t")⟩], [("stk")]⟩
    [⟨PlugKind.normal, ("stk"), ("t"), true, none, none⟩,
      ⟨PlugKind.mailer, ("m"), (""), true, none, none⟩]
    [{ (⟨PlugKind.normal, ("stk"), ("t"), true, none, none⟩ : PlugSt) with
        cloudMetadata := some ⟨("stk"), ("t")⟩ },
      ⟨PlugKind.mailer, ("m"), (""), true, none, none⟩]
    ⟨⟨PlugKind.mailer, ("m"), (""), true, none, none⟩, by decide, rfl⟩ rfl
